import Mathlib

/-!
Verification development for the SQS batch packer of `boto3_helpers/sqs.py`.

The Python module is shallowly embedded: message records become a `Message`
structure whose optional fields model optional dictionary keys, the
`KeyError` raised by `_get_size` on a record without a `MessageBody` key
becomes an `Except Unit` error, and the `_get_batches` generator becomes a
recursive function producing the list of all emitted batches.  The
run-scoped random token `token_hex(4)` is modelled as an explicit `base_id`
parameter, and the boto3 SQS client is modelled as an explicit function
from a queue URL and a batch to a response structure.
-/

namespace Boto3Helpers

/-- Decidable equality for `Except`, needed to evaluate concrete packer runs. -/
instance {ε α : Type} [DecidableEq ε] [DecidableEq α] : DecidableEq (Except ε α) := fun x y =>
  match x, y with
  | .error a, .error b =>
    if h : a = b then isTrue (by rw [h]) else isFalse (by intro hh; injection hh; contradiction)
  | .ok a, .ok b =>
    if h : a = b then isTrue (by rw [h]) else isFalse (by intro hh; injection hh; contradiction)
  | .error _, .ok _ => isFalse (by intro hh; injection hh)
  | .ok _, .error _ => isFalse (by intro hh; injection hh)

/-- One entry of the `MessageAttributes` mapping: a `DataType` string plus at
most one of `StringValue` (text) or `BinaryValue` (raw bytes, modelled as a
list of byte values). -/
structure AttrData where
  dataType : String
  stringValue : Option String
  binaryValue : Option (List Nat)
deriving DecidableEq

/-- A message record as passed to `send_message_batch` / `delete_message_batch`.
Optional fields model dictionary keys that may be absent (or set to `None`);
`extra` models any further keys such as `DelaySeconds`. -/
structure Message where
  id : Option String
  messageBody : Option String
  messageAttributes : List (String × AttrData)
  receiptHandle : Option String
  extra : List (String × String)
deriving DecidableEq

/-- Default record used with `List.getD`. -/
def defaultMessage : Message :=
  { id := none, messageBody := none, messageAttributes := [],
    receiptHandle := none, extra := [] }

/-- `MESSAGE_LIMIT = 10` from the source. -/
def MESSAGE_LIMIT : Nat := 10

/-- `SIZE_LIMIT = 262144` from the source. -/
def SIZE_LIMIT : Nat := 262144

/-- The value contribution of one attribute: the UTF-8 byte length of
`StringValue` if present, else the raw length of `BinaryValue` if present,
else nothing (`if 'StringValue' in attr_data ... elif 'BinaryValue' ...`). -/
def attrValueSize (a : AttrData) : Nat :=
  match a.stringValue with
  | some s => s.utf8ByteSize
  | none =>
    match a.binaryValue with
    | some b => b.length
    | none => 0

/-- `_get_size`: UTF-8 byte length of the body plus, for each attribute, the
byte lengths of its name, its `DataType` string, and its value.  Accessing
`message['MessageBody']` on a record without a body raises `KeyError`,
modelled as `.error ()`. -/
def get_size (message : Message) : Except Unit Nat :=
  match message.messageBody with
  | none => .error ()
  | some body =>
    .ok (message.messageAttributes.foldl
      (fun ret ad =>
        ret + ad.1.utf8ByteSize + ad.2.dataType.utf8ByteSize + attrValueSize ad.2)
      body.utf8ByteSize)

/-- Identifier assignment for one record at 1-based position `i`:
`if message.get('Id') is None: message['Id'] = f'...'` with the run-scoped
`base_id` prefix. -/
def assignId (base_id : String) (i : Nat) (m : Message) : Message :=
  if m.id = none then { m with id := some (base_id ++ "-" ++ toString i) } else m

/-- The two `if size_limit is None / is not None` statements of `_get_batches`:
produce the pair `(message_size, reached_size)`, or propagate the `KeyError`
from `_get_size`. -/
def sizedInfo (size_limit : Option Nat) (current_size : Nat) (m : Message) :
    Except Unit (Nat × Bool) :=
  match size_limit with
  | none => .ok (0, false)
  | some sl =>
    match get_size m with
    | .error e => .error e
    | .ok message_size => .ok (message_size, decide (current_size + message_size > sl))

/-- The loop body of the `_get_batches` generator.  Arguments after the
limits are the enumeration counter `i` (1-based), the current batch, the
running size, the running count, and the remaining input. -/
def get_batches_go (base_id : String) (message_limit : Nat) (size_limit : Option Nat) :
    Nat → List Message → Nat → Nat → List Message → Except Unit (List (List Message))
  | _, current_batch, _, _, [] =>
    .ok (if current_batch = [] then [] else [current_batch])
  | i, current_batch, current_size, current_count, message :: rest =>
    match sizedInfo size_limit current_size (assignId base_id i message) with
    | .error e => .error e
    | .ok (message_size, reached_size) =>
      if current_batch ≠ [] ∧ (reached_size = true ∨ current_count = message_limit) then
        match get_batches_go base_id message_limit size_limit (i + 1)
            [assignId base_id i message] message_size 1 rest with
        | .error e => .error e
        | .ok batches => .ok (current_batch :: batches)
      else
        get_batches_go base_id message_limit size_limit (i + 1)
          (current_batch ++ [assignId base_id i message]) (current_size + message_size)
          (current_count + 1) rest

/-- `_get_batches(all_messages, message_limit, size_limit)`, with the
run-scoped random token `token_hex(4)` injected as `base_id`. -/
def get_batches (base_id : String) (all_messages : List Message)
    (message_limit : Nat) (size_limit : Option Nat) :
    Except Unit (List (List Message)) :=
  get_batches_go base_id message_limit size_limit 1 [] 0 0 all_messages

/-- The record transformation performed by one run of the packer: every
record at 1-based position `i` passes through `assignId base_id i`. -/
def withIds (base_id : String) : Nat → List Message → List Message
  | _, [] => []
  | i, m :: rest => assignId base_id i m :: withIds base_id (i + 1) rest

/-- The size `_get_size` reports for a record, defaulting to `0` on the
records it rejects (used only to state size bounds about records that were
accepted). -/
def sizeD (m : Message) : Nat :=
  match get_size m with
  | .ok n => n
  | .error _ => 0

/-- Cumulative estimated size of a batch. -/
def batchSize (b : List Message) : Nat := (b.map sizeD).sum

/-- Response of one bulk call: the `Successful` and `Failed` lists, with
entry shapes left abstract. -/
structure BatchResponse (α β : Type) where
  successful : List α
  failed : List β
deriving DecidableEq

/-- The accumulation loop shared by `send_batches` and `delete_batches`:
`ret['Successful'] += resp.get('Successful', []); ret['Failed'] += ...`
once per emitted batch, in emission order. -/
def accumulateResponses {α β : Type} (call : List Message → BatchResponse α β) :
    List (List Message) → BatchResponse α β → BatchResponse α β
  | [], ret => ret
  | batch :: more, ret =>
    accumulateResponses call more
      ⟨ret.successful ++ (call batch).successful, ret.failed ++ (call batch).failed⟩

/-- `send_batches`: run the packer, call `send_message_batch` once per batch,
and accumulate the responses.  The SQS client is modelled as the function
`send_message_batch` from queue URL and entries to a response. -/
def send_batches {α β : Type}
    (send_message_batch : String → List Message → BatchResponse α β)
    (base_id queue_url : String) (all_messages : List Message)
    (message_limit : Nat) (size_limit : Option Nat) :
    Except Unit (BatchResponse α β) :=
  match get_batches base_id all_messages message_limit size_limit with
  | .error e => .error e
  | .ok batches => .ok (accumulateResponses (send_message_batch queue_url) batches ⟨[], []⟩)

/-- The fresh entry `{k: m.get(k) for k in ('Id', 'ReceiptHandle')}` built by
`delete_batches` for each input record: exactly the two keys `Id` and
`ReceiptHandle` (each `None` when absent from the record), nothing else. -/
def toDelete (m : Message) : Message :=
  { id := m.id, messageBody := none, messageAttributes := [],
    receiptHandle := m.receiptHandle, extra := [] }

/-- `delete_batches`: project each record to its two-key delete entry, run the
packer with size limiting disabled, call `delete_message_batch` once per
batch, and accumulate the responses. -/
def delete_batches {α β : Type}
    (delete_message_batch : String → List Message → BatchResponse α β)
    (base_id queue_url : String) (all_messages : List Message)
    (message_limit : Nat) : Except Unit (BatchResponse α β) :=
  match get_batches base_id (all_messages.map toDelete) message_limit none with
  | .error e => .error e
  | .ok batches => .ok (accumulateResponses (delete_message_batch queue_url) batches ⟨[], []⟩)

/-- A record with the identifier erased: used to state that the packer
changes nothing about a record except possibly filling in its identifier. -/
def eraseId (m : Message) : Message := { m with id := none }

/-- Decimal digit characters of a natural number, most significant first
(with the special case of a bare zero), as produced by the standard library
decimal printer; used to reason about the generated identifier suffixes. -/
def repChars (n : Nat) : List Char :=
  if n = 0 then ['0'] else ((Nat.digits 10 n).map Nat.digitChar).reverse

/-- The size formula in the spec's wording as amended: UTF-8 byte length of
the body plus, for each attribute, the byte lengths of its name, of its
declared kind string, and of its value (UTF-8 if textual, raw if binary),
with no framing overhead. -/
def specSize (body : String) (attrs : List (String × AttrData)) : Nat :=
  body.utf8ByteSize +
    (attrs.map fun ad => ad.1.utf8ByteSize + ad.2.dataType.utf8ByteSize + attrValueSize ad.2).sum

/-- A body-only record without an identifier. -/
def mkMsg (body : String) : Message :=
  { id := none, messageBody := some body, messageAttributes := [],
    receiptHandle := none, extra := [] }

/-- A body-only record with an identifier. -/
def mkMsgId (i body : String) : Message :=
  { id := some i, messageBody := some body, messageAttributes := [],
    receiptHandle := none, extra := [] }

/-- Scenario A input: bodies of 10, 10, 10, 10 and 9 ASCII bytes. -/
def msgsA : List Message :=
  [mkMsg "1234567890", mkMsg "1234567890", mkMsg "1234567890",
   mkMsg "1234567890", mkMsg "123456789"]

/-- Scenario B input: ten single-byte-body records. -/
def msgsB : List Message := List.replicate 10 (mkMsg "1")

/-- Scenario E record: 10-byte ASCII body and one `String` attribute named
`text` with a 2-byte value. -/
def eMsg : Message :=
  { id := none, messageBody := some "1234567890",
    messageAttributes :=
      [("text", { dataType := "String", stringValue := some "ab", binaryValue := none })],
    receiptHandle := none, extra := [] }

/-- Scenario C record: a body of 500 ASCII bytes, so its size estimate is 500. -/
def c500 : Message := mkMsg (String.mk (List.replicate 500 'a'))

/-- A record with no `MessageBody` key. -/
def noBodyMsg : Message :=
  { id := none, messageBody := none, messageAttributes := [],
    receiptHandle := none, extra := [] }

/-- Identifier-assignment witness input: the middle record already carries
an identifier, the outer two do not. -/
def msgsIds : List Message := [mkMsg "x", mkMsgId "24601" "y", mkMsg "z"]

/-! ### Basic facts about the embedded definitions -/

lemma withIds_cons (base : String) (i : Nat) (m : Message) (rest : List Message) :
    withIds base i (m :: rest) = assignId base i m :: withIds base (i + 1) rest := rfl

lemma assignId_messageBody (b : String) (i : Nat) (m : Message) :
    (assignId b i m).messageBody = m.messageBody := by
  unfold assignId; split <;> rfl

lemma assignId_messageAttributes (b : String) (i : Nat) (m : Message) :
    (assignId b i m).messageAttributes = m.messageAttributes := by
  unfold assignId; split <;> rfl

lemma assignId_receiptHandle (b : String) (i : Nat) (m : Message) :
    (assignId b i m).receiptHandle = m.receiptHandle := by
  unfold assignId; split <;> rfl

lemma assignId_extra (b : String) (i : Nat) (m : Message) :
    (assignId b i m).extra = m.extra := by
  unfold assignId; split <;> rfl

lemma assignId_of_none {m : Message} (b : String) (i : Nat) (h : m.id = none) :
    assignId b i m = { m with id := some (b ++ "-" ++ toString i) } := by
  unfold assignId; rw [if_pos h]

lemma assignId_of_some {m : Message} (b : String) (i : Nat) (h : m.id ≠ none) :
    assignId b i m = m := by
  unfold assignId; rw [if_neg h]

lemma get_size_assignId (b : String) (i : Nat) (m : Message) :
    get_size (assignId b i m) = get_size m := by
  unfold assignId; split <;> rfl

lemma get_size_error_of_none {m : Message} (h : m.messageBody = none) :
    get_size m = .error () := by
  simp only [get_size, h]

lemma sizeD_eq {m : Message} {n : Nat} (h : get_size m = .ok n) : sizeD m = n := by
  unfold sizeD; rw [h]

lemma batchSize_singleton (x : Message) : batchSize [x] = sizeD x := by
  simp [batchSize]

lemma batchSize_append_singleton (b : List Message) (x : Message) :
    batchSize (b ++ [x]) = batchSize b + sizeD x := by
  simp [batchSize]

lemma eraseId_assignId (b : String) (i : Nat) (m : Message) :
    eraseId (assignId b i m) = eraseId m := by
  unfold assignId eraseId; split <;> rfl

lemma withIds_length (base : String) :
    ∀ (msgs : List Message) (s : Nat), (withIds base s msgs).length = msgs.length := by
  intro msgs
  induction msgs with
  | nil => intro s; rfl
  | cons m rest ih => intro s; simp [withIds, ih]

lemma withIds_getD (base : String) :
    ∀ (msgs : List Message) (s k : Nat), k < msgs.length →
      (withIds base s msgs).getD k defaultMessage
        = assignId base (s + k) (msgs.getD k defaultMessage) := by
  intro msgs
  induction msgs with
  | nil => intro s k h; simp at h
  | cons m rest ih =>
    intro s k h
    cases k with
    | zero => simp [withIds]
    | succ k2 =>
      simp only [withIds, List.getD_cons_succ]
      rw [ih (s + 1) k2 (by simpa using h)]
      have harith : s + 1 + k2 = s + (k2 + 1) := by omega
      rw [harith]

lemma withIds_map_eraseId (base : String) :
    ∀ (msgs : List Message) (s : Nat),
      (withIds base s msgs).map eraseId = msgs.map eraseId := by
  intro msgs
  induction msgs with
  | nil => intro s; rfl
  | cons m rest ih => intro s; simp [withIds, eraseId_assignId, ih]

/-! ### Invariants of the batching loop -/

lemma go_ok_join (base : String) (ml : Nat) (sl : Option Nat) :
    ∀ (msgs : List Message) (i : Nat) (cb : List Message) (cs cc : Nat)
      (bs : List (List Message)),
      get_batches_go base ml sl i cb cs cc msgs = .ok bs →
      bs.flatten = cb ++ withIds base i msgs := by
  intro msgs
  induction msgs with
  | nil =>
    intro i cb cs cc bs h
    simp only [get_batches_go] at h
    by_cases hcb : cb = [] <;> simp [hcb] at h <;> (try subst h) <;> simp [withIds, hcb]
  | cons m rest ih =>
    intro i cb cs cc bs h
    simp only [get_batches_go] at h
    cases hsz : sizedInfo sl cs (assignId base i m) with
    | error e => rw [hsz] at h; simp at h
    | ok p =>
      obtain ⟨ms, rs⟩ := p
      rw [hsz] at h
      simp only at h
      split at h
      · cases hrec : get_batches_go base ml sl (i + 1) [assignId base i m] ms 1 rest with
        | error e => rw [hrec] at h; simp at h
        | ok bs2 =>
          rw [hrec] at h
          simp only [Except.ok.injEq] at h
          subst h
          have hj := ih (i + 1) [assignId base i m] ms 1 bs2 hrec
          simp [withIds_cons, hj]
      · have hj := ih (i + 1) (cb ++ [assignId base i m]) (cs + ms) (cc + 1) bs h
        simp [withIds_cons, hj]

lemma go_ok_count (base : String) (ml : Nat) (sl : Option Nat) (hml : 0 < ml) :
    ∀ (msgs : List Message) (i : Nat) (cb : List Message) (cs cc : Nat)
      (bs : List (List Message)),
      cb.length = cc → cc ≤ ml →
      get_batches_go base ml sl i cb cs cc msgs = .ok bs →
      ∀ b ∈ bs, b.length ≤ ml := by
  intro msgs
  induction msgs with
  | nil =>
    intro i cb cs cc bs hlen hle h
    simp only [get_batches_go] at h
    by_cases hcb : cb = [] <;> simp [hcb] at h
    · subst h; intro b hb; simp at hb
    · subst h; intro b hb; simp at hb; subst hb; omega
  | cons m rest ih =>
    intro i cb cs cc bs hlen hle h
    simp only [get_batches_go] at h
    cases hsz : sizedInfo sl cs (assignId base i m) with
    | error e => rw [hsz] at h; simp at h
    | ok p =>
      obtain ⟨ms, rs⟩ := p
      rw [hsz] at h
      simp only at h
      split at h
      case isTrue hcond =>
        cases hrec : get_batches_go base ml sl (i + 1) [assignId base i m] ms 1 rest with
        | error e => rw [hrec] at h; simp at h
        | ok bs2 =>
          rw [hrec] at h
          simp only [Except.ok.injEq] at h
          subst h
          intro b hb
          rcases List.mem_cons.mp hb with rfl | hb2
          · omega
          · exact ih (i + 1) [assignId base i m] ms 1 bs2 rfl hml hrec b hb2
      case isFalse hcond =>
        refine ih (i + 1) (cb ++ [assignId base i m]) (cs + ms) (cc + 1) bs
          (by simp [hlen]) ?_ h
        by_cases hcb : cb = []
        · subst hcb
          simp at hlen
          omega
        · have hno : ¬(rs = true ∨ cc = ml) := fun hor => hcond ⟨hcb, hor⟩
          have hne : cc ≠ ml := fun hcc => hno (Or.inr hcc)
          omega

lemma go_ok_size (base : String) (ml sl : Nat) :
    ∀ (msgs : List Message) (i : Nat) (cb : List Message) (cs cc : Nat)
      (bs : List (List Message)),
      cs = batchSize cb → (batchSize cb ≤ sl ∨ cb.length = 1) →
      get_batches_go base ml (some sl) i cb cs cc msgs = .ok bs →
      ∀ b ∈ bs, batchSize b ≤ sl ∨ b.length = 1 := by
  intro msgs
  induction msgs with
  | nil =>
    intro i cb cs cc bs hcs hinv h
    simp only [get_batches_go] at h
    by_cases hcb : cb = [] <;> simp [hcb] at h
    · subst h; intro b hb; simp at hb
    · subst h; intro b hb; simp at hb; subst hb; exact hinv
  | cons m rest ih =>
    intro i cb cs cc bs hcs hinv h
    simp only [get_batches_go] at h
    cases hg : get_size (assignId base i m) with
    | error e => simp only [sizedInfo, hg] at h; simp at h
    | ok ms =>
      simp only [sizedInfo, hg] at h
      split at h
      case isTrue hcond =>
        cases hrec : get_batches_go base ml (some sl) (i + 1) [assignId base i m] ms 1 rest with
        | error e => rw [hrec] at h; simp at h
        | ok bs2 =>
          rw [hrec] at h
          simp only [Except.ok.injEq] at h
          subst h
          intro b hb
          rcases List.mem_cons.mp hb with rfl | hb2
          · exact hinv
          · refine ih (i + 1) [assignId base i m] ms 1 bs2 ?_ (Or.inr rfl) hrec b hb2
            rw [batchSize_singleton, sizeD_eq hg]
      case isFalse hcond =>
        refine ih (i + 1) (cb ++ [assignId base i m]) (cs + ms) (cc + 1) bs ?_ ?_ h
        · rw [batchSize_append_singleton, sizeD_eq hg, hcs]
        · by_cases hcb : cb = []
          · subst hcb; right; simp
          · have hno : ¬(decide (cs + ms > sl) = true ∨ cc = ml) := fun hor => hcond ⟨hcb, hor⟩
            simp only [decide_eq_true_eq, not_or] at hno
            left
            rw [batchSize_append_singleton, sizeD_eq hg, ← hcs]
            omega

lemma go_ok_oversize (base : String) (ml sl : Nat) :
    ∀ (msgs : List Message) (i : Nat) (cb : List Message) (cs cc : Nat)
      (bs : List (List Message)),
      cs = batchSize cb → (∀ x ∈ cb, sl < sizeD x → cb = [x]) →
      get_batches_go base ml (some sl) i cb cs cc msgs = .ok bs →
      ∀ b ∈ bs, ∀ x ∈ b, sl < sizeD x → b = [x] := by
  intro msgs
  induction msgs with
  | nil =>
    intro i cb cs cc bs hcs hinv h
    simp only [get_batches_go] at h
    by_cases hcb : cb = [] <;> simp [hcb] at h
    · subst h; intro b hb; simp at hb
    · subst h; intro b hb; simp at hb; subst hb; exact hinv
  | cons m rest ih =>
    intro i cb cs cc bs hcs hinv h
    simp only [get_batches_go] at h
    cases hg : get_size (assignId base i m) with
    | error e => simp only [sizedInfo, hg] at h; simp at h
    | ok ms =>
      simp only [sizedInfo, hg] at h
      split at h
      case isTrue hcond =>
        cases hrec : get_batches_go base ml (some sl) (i + 1) [assignId base i m] ms 1 rest with
        | error e => rw [hrec] at h; simp at h
        | ok bs2 =>
          rw [hrec] at h
          simp only [Except.ok.injEq] at h
          subst h
          intro b hb
          rcases List.mem_cons.mp hb with rfl | hb2
          · exact hinv
          · refine ih (i + 1) [assignId base i m] ms 1 bs2 ?_ ?_ hrec b hb2
            · rw [batchSize_singleton, sizeD_eq hg]
            · intro x hx hbig
              simp at hx
              subst hx
              rfl
      case isFalse hcond =>
        refine ih (i + 1) (cb ++ [assignId base i m]) (cs + ms) (cc + 1) bs ?_ ?_ h
        · rw [batchSize_append_singleton, sizeD_eq hg, hcs]
        · by_cases hcb : cb = []
          · subst hcb
            intro x hx hbig
            simp at hx
            subst hx
            rfl
          · have hno : ¬(decide (cs + ms > sl) = true ∨ cc = ml) := fun hor => hcond ⟨hcb, hor⟩
            simp only [decide_eq_true_eq, not_or] at hno
            intro x hx hbig
            rcases List.mem_append.mp hx with hxc | hxm
            · have hsing := hinv x hxc hbig
              rw [hsing, batchSize_singleton] at hcs
              omega
            · simp at hxm
              subst hxm
              rw [sizeD_eq hg] at hbig
              omega

lemma go_error_of_missing_body (base : String) (ml sl : Nat) :
    ∀ (msgs : List Message) (i : Nat) (cb : List Message) (cs cc : Nat),
      (∃ m ∈ msgs, m.messageBody = none) →
      get_batches_go base ml (some sl) i cb cs cc msgs = .error () := by
  intro msgs
  induction msgs with
  | nil =>
    intro i cb cs cc hex
    simp at hex
  | cons m rest ih =>
    intro i cb cs cc hex
    obtain ⟨m0, hm0, hb0⟩ := hex
    rcases List.mem_cons.mp hm0 with rfl | hm0r
    · have hg : get_size (assignId base i m0) = .error () := by
        apply get_size_error_of_none
        rw [assignId_messageBody]
        exact hb0
      simp only [get_batches_go, sizedInfo, hg]
    · cases hg : get_size (assignId base i m) with
      | error e =>
        cases e
        simp only [get_batches_go, sizedInfo, hg]
      | ok ms =>
        simp only [get_batches_go, sizedInfo, hg]
        split
        · rw [ih (i + 1) [assignId base i m] ms 1 ⟨m0, hm0r, hb0⟩]
        · exact ih (i + 1) (cb ++ [assignId base i m]) (cs + ms) (cc + 1) ⟨m0, hm0r, hb0⟩

lemma go_none_total (base : String) (ml : Nat) :
    ∀ (msgs : List Message) (i : Nat) (cb : List Message) (cs cc : Nat),
      ∃ bs, get_batches_go base ml none i cb cs cc msgs = .ok bs := by
  intro msgs
  induction msgs with
  | nil => intro i cb cs cc; exact ⟨_, rfl⟩
  | cons m rest ih =>
    intro i cb cs cc
    by_cases hcond : cb ≠ [] ∧ ((false : Bool) = true ∨ cc = ml)
    · obtain ⟨bs2, h2⟩ := ih (i + 1) [assignId base i m] 0 1
      refine ⟨cb :: bs2, ?_⟩
      simp only [get_batches_go, sizedInfo]
      rw [if_pos hcond, h2]
    · obtain ⟨bs2, h2⟩ := ih (i + 1) (cb ++ [assignId base i m]) (cs + 0) (cc + 1)
      refine ⟨bs2, ?_⟩
      simp only [get_batches_go, sizedInfo]
      rw [if_neg hcond]
      exact h2

lemma accumulateResponses_eq {α β : Type} (call : List Message → BatchResponse α β) :
    ∀ (batches : List (List Message)) (ret : BatchResponse α β),
      accumulateResponses call batches ret =
        ⟨ret.successful ++ (batches.map fun b => (call b).successful).flatten,
         ret.failed ++ (batches.map fun b => (call b).failed).flatten⟩ := by
  intro batches
  induction batches with
  | nil => intro ret; cases ret; simp [accumulateResponses]
  | cons b more ih => intro ret; simp [accumulateResponses, ih]

lemma get_size_foldl (attrs : List (String × AttrData)) :
    ∀ init : Nat,
      attrs.foldl
        (fun ret ad => ret + ad.1.utf8ByteSize + ad.2.dataType.utf8ByteSize + attrValueSize ad.2)
        init
        = init + (attrs.map
            fun ad => ad.1.utf8ByteSize + ad.2.dataType.utf8ByteSize + attrValueSize ad.2).sum := by
  induction attrs with
  | nil => intro init; simp
  | cons a t ih => intro init; simp [List.foldl_cons, ih]; ring

/-! ### Injectivity of the decimal printer, for identifier uniqueness -/

lemma toDigitsCore_eq_repChars :
    ∀ (fuel n : Nat) (ds : List Char), n < fuel →
      Nat.toDigitsCore 10 fuel n ds = repChars n ++ ds := by
  intro fuel
  induction fuel with
  | zero => intro n ds h; exact absurd h (Nat.not_lt_zero n)
  | succ f ih =>
    intro n ds h
    simp only [Nat.toDigitsCore]
    by_cases hq : n / 10 = 0
    · rw [if_pos hq]
      have hmod := Nat.div_add_mod n 10
      have hmlt := Nat.mod_lt n (by norm_num : (0:Nat) < 10)
      have hlt : n < 10 := by omega
      by_cases hn0 : n = 0
      · subst hn0; rfl
      · unfold repChars
        rw [if_neg hn0, Nat.digits_of_lt 10 n hn0 hlt]
        have hmodn : n % 10 = n := Nat.mod_eq_of_lt hlt
        rw [hmodn]
        rfl
    · rw [if_neg hq]
      have hn0 : n ≠ 0 := by intro h0; subst h0; simp at hq
      have hdivlt : n / 10 < n := Nat.div_lt_self (Nat.pos_of_ne_zero hn0) (by norm_num)
      have hf : n / 10 < f := by omega
      rw [ih (n / 10) (Nat.digitChar (n % 10) :: ds) hf]
      have hrc : repChars n = repChars (n / 10) ++ [Nat.digitChar (n % 10)] := by
        unfold repChars
        rw [if_neg hn0, if_neg hq]
        rw [Nat.digits_def' (by norm_num : (1:ℕ) < 10) (Nat.pos_of_ne_zero hn0)]
        simp
      rw [hrc]
      simp

lemma repr_eq_repChars (n : Nat) : Nat.repr n = (repChars n).asString := by
  unfold Nat.repr Nat.toDigits
  rw [toDigitsCore_eq_repChars (n + 1) n [] (Nat.lt_succ_self n)]
  simp

lemma digitChar_inj_lt :
    ∀ a, a < 10 → ∀ b, b < 10 → Nat.digitChar a = Nat.digitChar b → a = b := by decide

lemma map_digitChar_inj :
    ∀ (xs ys : List Nat), (∀ x ∈ xs, x < 10) → (∀ y ∈ ys, y < 10) →
      xs.map Nat.digitChar = ys.map Nat.digitChar → xs = ys := by
  intro xs
  induction xs with
  | nil =>
    intro ys _ _ h
    cases ys with
    | nil => rfl
    | cons y yt => simp at h
  | cons x xt ih =>
    intro ys hx hy h
    cases ys with
    | nil => simp at h
    | cons y yt =>
      simp only [List.map_cons, List.cons.injEq] at h
      have hxy := digitChar_inj_lt x (hx x (by simp)) y (hy y (by simp)) h.1
      have ht := ih yt (fun z hz => hx z (by simp [hz])) (fun z hz => hy z (by simp [hz])) h.2
      rw [hxy, ht]

lemma repChars_ne_zero_case {b : Nat} (hb : b ≠ 0) : repChars b ≠ ['0'] := by
  intro h
  unfold repChars at h
  rw [if_neg hb] at h
  have h2 : (Nat.digits 10 b).map Nat.digitChar = ['0'] := by
    have hrev := congrArg List.reverse h
    simpa using hrev
  cases hd : Nat.digits 10 b with
  | nil => rw [hd] at h2; simp at h2
  | cons d t =>
    rw [hd] at h2
    simp only [List.map_cons, List.cons.injEq] at h2
    obtain ⟨hd0, ht⟩ := h2
    have htn : t = [] := by simpa using ht
    have hdlt : d < 10 := Nat.digits_lt_base (by norm_num) (hd ▸ List.mem_cons_self d t)
    have hdz : d = 0 := digitChar_inj_lt d hdlt 0 (by norm_num) (by rw [hd0]; rfl)
    have hb0 : b = Nat.ofDigits 10 (Nat.digits 10 b) := (Nat.ofDigits_digits 10 b).symm
    rw [hd, htn, hdz] at hb0
    simp [Nat.ofDigits] at hb0
    exact hb hb0

lemma repChars_inj {a b : Nat} (h : repChars a = repChars b) : a = b := by
  by_cases ha : a = 0 <;> by_cases hb : b = 0
  · rw [ha, hb]
  · exfalso
    apply repChars_ne_zero_case hb
    rw [← h, ha]
    rfl
  · exfalso
    apply repChars_ne_zero_case ha
    rw [h, hb]
    rfl
  · unfold repChars at h
    rw [if_neg ha, if_neg hb] at h
    have h2 := List.reverse_injective h
    have hda : ∀ x ∈ Nat.digits 10 a, x < 10 := fun x hx => Nat.digits_lt_base (by norm_num) hx
    have hdb : ∀ x ∈ Nat.digits 10 b, x < 10 := fun x hx => Nat.digits_lt_base (by norm_num) hx
    have hdig := map_digitChar_inj _ _ hda hdb h2
    calc a = Nat.ofDigits 10 (Nat.digits 10 a) := (Nat.ofDigits_digits 10 a).symm
    _ = Nat.ofDigits 10 (Nat.digits 10 b) := by rw [hdig]
    _ = b := Nat.ofDigits_digits 10 b

lemma string_data_injective {s t : String} (h : s.data = t.data) : s = t := by
  cases s; cases t; simp at h; rw [h]

lemma string_append_data (a b : String) : (a ++ b).data = a.data ++ b.data := by
  cases a; cases b; rfl

lemma nat_repr_inj {a b : Nat} (h : Nat.repr a = Nat.repr b) : a = b := by
  apply repChars_inj
  rw [repr_eq_repChars, repr_eq_repChars] at h
  have h2 : String.mk (repChars a) = String.mk (repChars b) := by
    simpa [List.asString] using h
  injection h2

lemma generated_id_inj {base : String} {a b : Nat}
    (h : base ++ "-" ++ toString a = base ++ "-" ++ toString b) : a = b := by
  apply nat_repr_inj
  have hd := congrArg String.data h
  rw [string_append_data, string_append_data] at hd
  have h2 := List.append_cancel_left hd
  exact string_data_injective h2

lemma withIds_mem (base : String) :
    ∀ (msgs : List Message) (s : Nat) (e : Message), e ∈ withIds base s msgs →
      ∃ k m0, m0 ∈ msgs ∧ e = assignId base k m0 := by
  intro msgs
  induction msgs with
  | nil => intro s e he; simp [withIds] at he
  | cons m rest ih =>
    intro s e he
    rw [withIds_cons] at he
    rcases List.mem_cons.mp he with rfl | he2
    · exact ⟨s, m, List.mem_cons_self m rest, rfl⟩
    · obtain ⟨k, m0, hm0, hk⟩ := ih (s + 1) e he2
      exact ⟨k, m0, List.mem_cons_of_mem m hm0, hk⟩

lemma map_toDelete_getD (msgs : List Message) (i : Nat) (hi : i < msgs.length) :
    (msgs.map toDelete).getD i defaultMessage = toDelete (msgs.getD i defaultMessage) := by
  rw [List.getD_eq_getElem _ _ (by simpa using hi), List.getD_eq_getElem _ _ hi, List.getElem_map]

/-- Claim C1: for every finite input, every positive message limit and every
size-limit setting, concatenating the emitted batches in order yields exactly
the run's record sequence: the input records in original order, unchanged
except that missing identifiers have been filled in. -/
theorem C1_packer_reproduces_input (base : String) (ml : Nat) (sl : Option Nat)
    (msgs : List Message) (bs : List (List Message)) (_hml : 0 < ml)
    (hrun : get_batches base msgs ml sl = .ok bs) :
    bs.flatten = withIds base 1 msgs ∧
      bs.flatten.map eraseId = msgs.map eraseId := by
  have hj := go_ok_join base ml sl msgs 1 [] 0 0 bs hrun
  simp at hj
  exact ⟨hj, by rw [hj, withIds_map_eraseId]⟩

theorem C1_packer_reproduces_input_witness :
    [withIds "b" 1 msgsA].flatten = withIds "b" 1 msgsA ∧
      [withIds "b" 1 msgsA].flatten.map eraseId = msgsA.map eraseId :=
  C1_packer_reproduces_input "b" 5 (some 49) msgsA [withIds "b" 1 msgsA] (by decide) (by rfl)

/-- Claim C2: for every finite input and every positive message_limit, with or
without size limiting, every batch emitted by the packer contains at most
message_limit records: the count limit is a hard per-batch cap.  (The
witness adds Scenario B: ten single-byte records with message_limit 5 and no
size limit give exactly two batches of 5.) -/
theorem C2_count_cap (base : String) (ml : Nat) (sl : Option Nat)
    (msgs : List Message) (bs : List (List Message)) (hml : 0 < ml)
    (hrun : get_batches base msgs ml sl = .ok bs) :
    ∀ b ∈ bs, b.length ≤ ml :=
  go_ok_count base ml sl hml msgs 1 [] 0 0 bs rfl (Nat.zero_le ml) hrun

theorem C2_count_cap_witness :
    (∀ b ∈ [withIds "b" 1 (msgsB.take 5), withIds "b" 6 (msgsB.drop 5)], b.length ≤ 5) ∧
    get_batches "b" msgsB 5 none
      = .ok [withIds "b" 1 (msgsB.take 5), withIds "b" 6 (msgsB.drop 5)] ∧
    (withIds "b" 1 (msgsB.take 5)).length = 5 ∧
    (withIds "b" 6 (msgsB.drop 5)).length = 5 :=
  ⟨C2_count_cap "b" 5 none msgsB [withIds "b" 1 (msgsB.take 5), withIds "b" 6 (msgsB.drop 5)]
      (by decide) (by rfl),
   by rfl, by rfl, by rfl⟩

/-- Claim C3: with size limiting enabled, every emitted batch is within the
size limit or is a singleton. -/
theorem C3_size_cap (base : String) (ml sl : Nat)
    (msgs : List Message) (bs : List (List Message))
    (hrun : get_batches base msgs ml (some sl) = .ok bs) :
    ∀ b ∈ bs, batchSize b ≤ sl ∨ b.length = 1 :=
  go_ok_size base ml sl msgs 1 [] 0 0 bs rfl (Or.inl (by simp [batchSize])) hrun

set_option maxRecDepth 100000 in
theorem C3_size_cap_witness :
    get_batches "b" [mkMsg "12345", c500] 10 (some 100)
      = .ok [[assignId "b" 1 (mkMsg "12345")], [assignId "b" 2 c500]] ∧
    (∀ b ∈ [[assignId "b" 1 (mkMsg "12345")], [assignId "b" 2 c500]],
      batchSize b ≤ 100 ∨ b.length = 1) :=
  ⟨by decide,
   C3_size_cap "b" 10 100 [mkMsg "12345", c500]
     [[assignId "b" 1 (mkMsg "12345")], [assignId "b" 2 c500]] (by decide)⟩

/-- Claim C4: the size-limit comparison is strictly greater-than.  Scenario A
records of sizes 10, 10, 10, 10, 9 with message_limit 5 and size_limit 49
land in a single batch of five (cumulative size exactly 49 is admitted),
whereas lowering the limit to 48 splits off the fifth record. -/
theorem C4_strict_size_boundary :
    get_batches "b" msgsA 5 (some 49) = .ok [withIds "b" 1 msgsA] ∧
    get_batches "b" msgsA 5 (some 48)
      = .ok [withIds "b" 1 (msgsA.take 4), [assignId "b" 5 (mkMsg "123456789")]] := by
  constructor <;> rfl

/-- Claim C5 counterexample: the Scenario E record (10-byte ASCII body, one
attribute named text of kind String with a 2-byte value) has size estimate
10 + 4 + 6 + 2 = 22, not the claimed 35: the estimator adds no 4-byte
length-prefix overhead and no 1-byte type tag for attribute components. -/
theorem C5_no_framing_overhead_counterexample :
    get_size eMsg = .ok 22 ∧ get_size eMsg ≠ .ok 35 := by
  constructor
  · rfl
  · decide

/-- Claim C5 as amended: for every record with a body, the size estimator
returns the UTF-8 byte length of the body plus, for each message attribute,
the byte length of the attribute name plus the byte length of the declared
kind (DataType) string plus the byte length of the value (UTF-8 encoded if
textual, raw bytes if binary), with no per-component framing overhead. -/
theorem C5_size_formula (m : Message) (body : String) (h : m.messageBody = some body) :
    get_size m = .ok (specSize body m.messageAttributes) := by
  simp only [get_size, h]
  rw [get_size_foldl]
  rfl

theorem C5_size_formula_witness :
    get_size eMsg = .ok (specSize "1234567890" eMsg.messageAttributes) ∧
    specSize "1234567890" eMsg.messageAttributes = 22 :=
  ⟨C5_size_formula eMsg "1234567890" rfl, by rfl⟩

/-- Claim C6: within one run, the record at 1-based position i passes through
assignId base i: a record lacking an identifier receives the identifier
base ++ "-" ++ toString i (so identifiers generated in one run are pairwise
distinct), while a record that already carries an identifier is unchanged. -/
theorem C6_identifier_assignment (base : String) (ml : Nat) (sl : Option Nat)
    (msgs : List Message) (bs : List (List Message))
    (hrun : get_batches base msgs ml sl = .ok bs) :
    bs.flatten.length = msgs.length ∧
    (∀ i, i < msgs.length →
      bs.flatten.getD i defaultMessage
        = assignId base (i + 1) (msgs.getD i defaultMessage)) ∧
    (∀ i, i < msgs.length → (msgs.getD i defaultMessage).id = none →
      (bs.flatten.getD i defaultMessage).id = some (base ++ "-" ++ toString (i + 1))) ∧
    (∀ i, i < msgs.length → (msgs.getD i defaultMessage).id ≠ none →
      bs.flatten.getD i defaultMessage = msgs.getD i defaultMessage) ∧
    (∀ i j, i < msgs.length → j < msgs.length → i ≠ j →
      (msgs.getD i defaultMessage).id = none → (msgs.getD j defaultMessage).id = none →
      (bs.flatten.getD i defaultMessage).id ≠ (bs.flatten.getD j defaultMessage).id) := by
  have hj := go_ok_join base ml sl msgs 1 [] 0 0 bs hrun
  simp at hj
  have hget : ∀ i, i < msgs.length →
      bs.flatten.getD i defaultMessage
        = assignId base (i + 1) (msgs.getD i defaultMessage) := by
    intro i hi
    rw [hj, withIds_getD base msgs 1 i hi]
    have harith : 1 + i = i + 1 := by omega
    rw [harith]
  refine ⟨by rw [hj, withIds_length], hget, ?_, ?_, ?_⟩
  · intro i hi hnone
    rw [hget i hi, assignId_of_none base (i + 1) hnone]
  · intro i hi hsome
    rw [hget i hi, assignId_of_some base (i + 1) hsome]
  · intro i j hi hj2 hne hni hnj
    rw [hget i hi, hget j hj2, assignId_of_none base (i + 1) hni,
      assignId_of_none base (j + 1) hnj]
    show some (base ++ "-" ++ toString (i + 1)) ≠ some (base ++ "-" ++ toString (j + 1))
    intro heq
    injection heq with heq2
    have := generated_id_inj heq2
    omega

theorem C6_identifier_assignment_witness :
    (msgsIds.getD 0 defaultMessage).id = none ∧
    (msgsIds.getD 1 defaultMessage).id = some "24601" ∧
    ([withIds "t" 1 msgsIds].flatten.getD 0 defaultMessage).id
      = some ("t" ++ "-" ++ toString (0 + 1)) ∧
    [withIds "t" 1 msgsIds].flatten.getD 1 defaultMessage = msgsIds.getD 1 defaultMessage ∧
    ([withIds "t" 1 msgsIds].flatten.getD 0 defaultMessage).id
      ≠ ([withIds "t" 1 msgsIds].flatten.getD 2 defaultMessage).id :=
  ⟨rfl, rfl,
   (C6_identifier_assignment "t" 10 none msgsIds [withIds "t" 1 msgsIds] rfl).2.2.1
     0 (by decide) rfl,
   (C6_identifier_assignment "t" 10 none msgsIds [withIds "t" 1 msgsIds] rfl).2.2.2.1
     1 (by decide) (by decide),
   (C6_identifier_assignment "t" 10 none msgsIds [withIds "t" 1 msgsIds] rfl).2.2.2.2
     0 2 (by decide) (by decide) (by decide) rfl rfl⟩

/-- Claim C7: the packer is total on finite inputs (it is a terminating
function by construction) and a record whose size estimate alone exceeds the
size limit is neither dropped nor stalls the loop: any record in any emitted
batch whose size exceeds the limit is the sole element of its batch.  (The
witness adds Scenario C: one record of size 500 with size_limit 100 yields
exactly one singleton batch.) -/
theorem C7_oversized_singleton (base : String) (ml sl : Nat)
    (msgs : List Message) (bs : List (List Message))
    (hrun : get_batches base msgs ml (some sl) = .ok bs) :
    ∀ b ∈ bs, ∀ x ∈ b, sl < sizeD x → b = [x] :=
  go_ok_oversize base ml sl msgs 1 [] 0 0 bs rfl
    (fun x hx => absurd hx (List.not_mem_nil x)) hrun

set_option maxRecDepth 100000 in
theorem C7_oversized_singleton_witness :
    get_batches "b" [c500] 10 (some 100) = .ok [[assignId "b" 1 c500]] ∧
    100 < sizeD (assignId "b" 1 c500) ∧
    [assignId "b" 1 c500] = [assignId "b" 1 c500] :=
  ⟨by decide, by decide,
   C7_oversized_singleton "b" 10 100 [c500] [[assignId "b" 1 c500]] (by decide)
     [assignId "b" 1 c500] (by simp) (assignId "b" 1 c500) (by simp) (by decide)⟩

/-- Claim C8: send_batches calls the delivery primitive once per emitted batch
in emission order, and returns the concatenation of the per-batch Successful
lists and the concatenation of the per-batch Failed lists, in that order; on
an empty input the packer emits no batches, so no delivery call is made and
the aggregate is empty. -/
theorem C8_send_aggregates (α β : Type) (smb : String → List Message → BatchResponse α β)
    (base q : String) (ml : Nat) (sl : Option Nat)
    (msgs : List Message) (bs : List (List Message))
    (hrun : get_batches base msgs ml sl = .ok bs) :
    send_batches smb base q msgs ml sl
      = .ok ⟨(bs.map fun b => (smb q b).successful).flatten,
             (bs.map fun b => (smb q b).failed).flatten⟩ ∧
    get_batches base ([] : List Message) ml sl = .ok [] ∧
    send_batches smb base q ([] : List Message) ml sl = .ok ⟨[], []⟩ := by
  refine ⟨?_, rfl, rfl⟩
  simp only [send_batches, hrun, accumulateResponses_eq]
  simp

theorem C8_send_aggregates_witness :
    send_batches (fun _ b => (⟨[b], []⟩ : BatchResponse (List Message) Unit)) "b" "q" msgsB 5 none
      = .ok ⟨[withIds "b" 1 (msgsB.take 5), withIds "b" 6 (msgsB.drop 5)], []⟩ := by
  have h := (C8_send_aggregates (List Message) Unit (fun _ b => ⟨[b], []⟩) "b" "q" 5 none msgsB
    [withIds "b" 1 (msgsB.take 5), withIds "b" 6 (msgsB.drop 5)] (by rfl)).1
  simpa using h

/-- Claim C9: the size estimator fails loudly (KeyError, modelled as an
Except error) on every record without a body, and consequently a packer run
with size limiting enabled fails loudly whenever some input record lacks a
body, rather than estimating it as zero and batching it. -/
theorem C9_missing_body_fails (sl : Nat) :
    (∀ m : Message, m.messageBody = none → get_size m = .error ()) ∧
    (∀ (base : String) (ml : Nat) (msgs : List Message) (m : Message),
        m ∈ msgs → m.messageBody = none →
        get_batches base msgs ml (some sl) = .error ()) := by
  constructor
  · intro m h
    exact get_size_error_of_none h
  · intro base ml msgs m hm hb
    exact go_error_of_missing_body base ml sl msgs 1 [] 0 0 ⟨m, hm, hb⟩

theorem C9_missing_body_fails_witness :
    get_size noBodyMsg = .error () ∧
    get_batches "b" [noBodyMsg] 10 (some 100) = .error () :=
  ⟨(C9_missing_body_fails 100).1 noBodyMsg rfl,
   (C9_missing_body_fails 100).2 "b" 10 [noBodyMsg] noBodyMsg (by simp) rfl⟩

/-- Claim C10: delete_batches builds for each caller record a fresh two-key
entry (Id and ReceiptHandle, each possibly null) and hands only those fresh
entries to the packer with size limiting disabled, so no size estimate is
ever computed and the run never fails even though no entry has a body; the
emitted entries carry no body, no attributes and no extra keys, and their
receipt handles agree position-wise with the caller records, which are
themselves left untouched. -/
theorem C10_delete_frame (α β : Type) (dmb : String → List Message → BatchResponse α β)
    (base q : String) (ml : Nat) (msgs : List Message) :
    ∃ bs, get_batches base (msgs.map toDelete) ml none = .ok bs ∧
      delete_batches dmb base q msgs ml
        = .ok ⟨(bs.map fun b => (dmb q b).successful).flatten,
               (bs.map fun b => (dmb q b).failed).flatten⟩ ∧
      bs.flatten = withIds base 1 (msgs.map toDelete) ∧
      (∀ e ∈ bs.flatten, e.messageBody = none ∧ e.messageAttributes = [] ∧ e.extra = []) ∧
      bs.flatten.length = msgs.length ∧
      (∀ i, i < msgs.length →
        (bs.flatten.getD i defaultMessage).receiptHandle
          = (msgs.getD i defaultMessage).receiptHandle) := by
  obtain ⟨bs, hbs⟩ := go_none_total base ml (msgs.map toDelete) 1 [] 0 0
  have hj := go_ok_join base ml none (msgs.map toDelete) 1 [] 0 0 bs hbs
  simp at hj
  refine ⟨bs, hbs, ?_, hj, ?_, ?_, ?_⟩
  · have hgb : get_batches base (msgs.map toDelete) ml none = .ok bs := hbs
    simp only [delete_batches, hgb, accumulateResponses_eq]
    simp
  · intro e he
    rw [hj] at he
    obtain ⟨k, m0, hm0, rfl⟩ := withIds_mem base (msgs.map toDelete) 1 e he
    obtain ⟨m1, _, rfl⟩ := List.mem_map.mp hm0
    refine ⟨?_, ?_, ?_⟩
    · rw [assignId_messageBody]; rfl
    · rw [assignId_messageAttributes]; rfl
    · rw [assignId_extra]; rfl
  · rw [hj, withIds_length, List.length_map]
  · intro i hi
    rw [hj, withIds_getD base (msgs.map toDelete) 1 i (by simpa using hi),
      assignId_receiptHandle, map_toDelete_getD msgs i hi]
    rfl

end Boto3Helpers
